import Mathlib

/-!
# Verification of the workout-logger analytics core

Shallow embedding of the analytics and record-keeping logic of
`src/workout_logger.py`: the weight parser (`parse_weight`), the PR engine
(`get_pr_for_exercise`, `check_pr`), the streak calculator
(`calculate_streak`), the weekly nutrition aggregator
(`view_weekly_summary`, nutrition part), the ASCII progress-chart renderer
(`show_progress_chart`), and the persistence loaders (`load_data`,
`load_dict_data`).

Modelling conventions:
* Python strings are `List Char`; `str.lower`/`str.strip` become `lowerL`
  and `trimL` (ASCII whitespace, which covers every input the claims use).
* Python floats are modelled as exact rationals `ℚ`; `float(...)` on a
  string becomes `pyFloat`, covering the decimal-literal forms
  (sign, digits, fraction, exponent) that the repository's inputs use.
* Calendar dates (ISO `YYYY-MM-DD` strings in the source, compared
  lexicographically and subtracted via `datetime`) are modelled as day
  numbers `ℤ`; lexicographic order on ISO dates is order-isomorphic to day
  order, and a one-calendar-day gap is a difference of 1.
* `datetime.now()` becomes an explicit `today : ℤ` parameter.
* The file system seen by `load_data`/`load_dict_data` is a `StoredFile`
  state: `missing` (no file), `corrupt` (present, `json.load` raises),
  `valid` (present and parseable); raising becomes `Except.error`.
-/

/-! ## Characters and strings -/

/-- ASCII whitespace, as stripped by `str.strip()`. -/
def isWsChar (c : Char) : Bool :=
  c = ' ' || c = '\t' || c = '\n' || c = '\r'

/-- Python `str.strip()`: remove leading and trailing whitespace. -/
def trimL (s : List Char) : List Char :=
  List.rdropWhile isWsChar (List.dropWhile isWsChar s)

/-- Python `str.lower()` (ASCII). -/
def lowerL (s : List Char) : List Char :=
  s.map Char.toLower

/-- Python `"kg" in s` (substring test). -/
def hasKg : List Char → Bool
  | 'k' :: 'g' :: _ => true
  | _ :: rest => hasKg rest
  | [] => false

/-- Python `"lb" in s` (substring test). -/
def hasLb : List Char → Bool
  | 'l' :: 'b' :: _ => true
  | _ :: rest => hasLb rest
  | [] => false

/-- Python `s.replace("kg", "")`: remove every (left-to-right, non-overlapping)
occurrence of `kg`. -/
def stripKg : List Char → List Char
  | 'k' :: 'g' :: rest => stripKg rest
  | c :: rest => c :: stripKg rest
  | [] => []

/-- Python `s.replace("lbs", "")`. -/
def stripLbs : List Char → List Char
  | 'l' :: 'b' :: 's' :: rest => stripLbs rest
  | c :: rest => c :: stripLbs rest
  | [] => []

/-- Python `s.replace("lb", "")`. -/
def stripLb : List Char → List Char
  | 'l' :: 'b' :: rest => stripLb rest
  | c :: rest => c :: stripLb rest
  | [] => []

/-! ## `float(...)` on decimal literals -/

/-- Read a maximal run of decimal digits, returning their values and the
rest of the input. -/
def digChars : List Char → List ℕ × List Char
  | [] => ([], [])
  | c :: rest =>
    if c.isDigit then
      let p := digChars rest
      ((c.toNat - 48) :: p.1, p.2)
    else ([], c :: rest)

/-- Value of a run of decimal digits. -/
def digitsToNat (ds : List ℕ) : ℕ :=
  ds.foldl (fun a d => 10 * a + d) 0

/-- The exact rational value of a decimal literal with sign `neg`,
numerator `n` and denominator `d` (built with `mkRat` so that the value is
kernel-computable; this equals `(if neg then -1 else 1) * n / d`). -/
def qMake (neg : Bool) (n : ℤ) (d : ℕ) : ℚ :=
  mkRat (if neg then -n else n) d

/-- Exponent suffix of a float literal: optional sign, then at least one
digit, then end of input; scales the mantissa `n / d` by the power of ten. -/
def expTail (neg : Bool) (n : ℤ) (d : ℕ) (r : List Char) : Option ℚ :=
  let p :=
    match r with
    | '-' :: rr => (true, rr)
    | '+' :: rr => (false, rr)
    | _ => (false, r)
  let ds := digChars p.2
  if ds.1 = [] ∨ ds.2 ≠ [] then none
  else if p.1 then some (qMake neg n (d * 10 ^ digitsToNat ds.1))
  else some (qMake neg (n * 10 ^ digitsToNat ds.1) d)

/-- Core of `float(...)` on an already-stripped string: optional sign,
integer digits, optional fraction, optional exponent; at least one digit is
required and nothing may remain.  The mantissa `ip.fp` has the exact value
`(ip * 10^|fp| + fp) / 10^|fp|`. -/
def pyFloatCore (t : List Char) : Option ℚ :=
  let sp :=
    match t with
    | '-' :: r => (true, r)
    | '+' :: r => (false, r)
    | _ => (false, t)
  let ipp := digChars sp.2
  let fpp :=
    match ipp.2 with
    | '.' :: r => digChars r
    | _ => ([], ipp.2)
  if ipp.1 = [] ∧ fpp.1 = [] then none
  else
    let num : ℤ := digitsToNat ipp.1 * 10 ^ fpp.1.length + digitsToNat fpp.1
    let den : ℕ := 10 ^ fpp.1.length
    match fpp.2 with
    | [] => some (qMake sp.1 num den)
    | 'e' :: r => expTail sp.1 num den r
    | 'E' :: r => expTail sp.1 num den r
    | _ => none

/-- Python's `float(str)` on decimal literals: surrounding whitespace is
ignored; a malformed literal raises `ValueError`, modelled as `none`. -/
def pyFloat (s : List Char) : Option ℚ :=
  pyFloatCore (trimL s)

/-! ## Weight parser (`parse_weight`, lines 104–117) -/

/-- The parser `parse_weight`, translated clause by clause from the source:
empty input returns `None`; otherwise lowercase and strip; a string
containing `kg` has the `kg` removed and is parsed as a float; else one
containing `lb` has `lbs` then `lb` removed, is parsed, and is multiplied
by `0.453592`; else a bare float parse; `ValueError` becomes `none`. -/
def parse_weight (s : List Char) : Option ℚ :=
  if s = [] then none
  else
    let w := trimL (lowerL s)
    if hasKg w then pyFloat (trimL (stripKg w))
    else if hasLb w then
      (pyFloat (trimL (stripLb (stripLbs w)))).map
        (fun q => mkRat (q.num * 453592) (q.den * 1000000))
    else pyFloat w

/-- The weight-parsing pipeline exactly as the specification words it:
trim and lowercase; if the result contains `kg`, strip that substring and
parse the remainder as a float; else if it contains `lb` (covering
`lb`/`lbs`), strip and parse and multiply by `0.453592`; else attempt a
bare float parse. -/
def parseWeightSpec (s : List Char) : Option ℚ :=
  let w := trimL (lowerL s)
  if hasKg w then pyFloat (stripKg w)
  else if hasLb w then
    (pyFloat (stripLb (stripLbs w))).map (fun q => q * (453592 / 1000000 : ℚ))
  else pyFloat w

/-! ## PR engine (`get_pr_for_exercise` lines 120–137, `check_pr` 140–154) -/

/-- A stored workout entry, restricted to the fields the PR engine reads:
`w["exercise"]` and `w.get("weight", "")`. -/
structure Workout where
  exercise : List Char
  weight : List Char
deriving DecidableEq

/-- Python `[w for w in workouts if w["exercise"].lower() == exercise.lower()]`. -/
def matchingWorkouts (workouts : List Workout) (exercise : List Char) : List Workout :=
  workouts.filter (fun w => decide (lowerL w.exercise = lowerL exercise))

/-- The scan loop of `get_pr_for_exercise`: `best`/`best_weight` start at
`None`/`0`; an entry updates them iff its parsed weight is truthy
(non-`None` and nonzero) and strictly greater than `best_weight`. -/
def prFold : List Workout → Option Workout → ℚ → Option Workout
  | [], best, _ => best
  | w :: rest, best, bw =>
    match parse_weight w.weight with
    | some q => if q ≠ 0 ∧ bw < q then prFold rest (some w) q else prFold rest best bw
    | none => prFold rest best bw

/-- The operation `get_pr_for_exercise`: `None` when no entry matches the exercise name,
otherwise the result of the scan loop. -/
def get_pr_for_exercise (workouts : List Workout) (exercise : List Char) : Option Workout :=
  let exw := matchingWorkouts workouts exercise
  if exw.isEmpty then none else prFold exw none 0

/-- The operation `check_pr`: an untruthy (unparseable or zero) new weight is never a PR;
with no prior best the lift is automatically a PR with no previous value;
otherwise it is a PR iff the prior best's weight is truthy and strictly
below the new value, in which case the prior best's original weight text is
reported. -/
def check_pr (workouts : List Workout) (exercise new_weight : List Char) :
    Bool × Option (List Char) :=
  match parse_weight new_weight with
  | none => (false, none)
  | some nv =>
    if nv = 0 then (false, none)
    else
      match get_pr_for_exercise workouts exercise with
      | none => (true, none)
      | some old_pr =>
        match parse_weight old_pr.weight with
        | some ow => if ow ≠ 0 ∧ ow < nv then (true, some old_pr.weight) else (false, none)
        | none => (false, none)

/-- The parsed weights of the entries the scan loop can actually select:
those that parse to a strictly positive value. -/
def posParses (l : List Workout) : List ℚ :=
  l.filterMap (fun w =>
    match parse_weight w.weight with
    | some q => if 0 < q then some q else none
    | none => none)

/-- Maximum of a list of rationals, with `0` for the empty list; on a list
of positive values this is the true maximum. -/
def mxQ (l : List ℚ) : ℚ :=
  l.foldr max 0

/-! ## Streak calculator (`calculate_streak`, lines 411–439)

A workout contributes only its calendar date here, modelled as a day
number `today : ℤ` relative to the evaluation time. -/

/-- Insert into a descending list. -/
def insDesc (x : ℤ) : List ℤ → List ℤ
  | [] => [x]
  | y :: ys => if y ≤ x then x :: y :: ys else y :: insDesc x ys

/-- Python `sorted(·, reverse=True)`: sort into descending order. -/
def sortDesc : List ℤ → List ℤ
  | [] => []
  | x :: xs => insDesc x (sortDesc xs)

/-- The counting loop of `calculate_streak`: starting from the head date,
add one for each consecutive pair of the descending distinct-date list
whose gap is exactly one day, and stop at the first other gap. -/
def streakRun : ℤ → List ℤ → ℕ
  | c, p :: rest => if c - p = 1 then 1 + streakRun p rest else 0
  | _, [] => 0

/-- The operation `calculate_streak`: 0 for no workouts; otherwise take the distinct
workout dates in descending order; 0 unless the most recent is today or
yesterday; otherwise 1 plus the run of one-day gaps. -/
def calculate_streak (today : ℤ) (workoutDates : List ℤ) : ℕ :=
  if workoutDates = [] then 0
  else
    match sortDesc workoutDates.dedup with
    | [] => 0
    | d :: rest =>
      if d ≠ today ∧ d ≠ today - 1 then 0
      else 1 + streakRun d rest

/-- The count the specification describes: the number of entries of the
descending distinct-date list up to and including the first position whose
gap to the next date is not exactly one day. -/
def chainCount : List ℤ → ℕ
  | [] => 0
  | [_] => 1
  | a :: b :: r => if a - b = 1 then 1 + chainCount (b :: r) else 1

/-- The streak exactly as the specification words it. -/
def currentStreakSpec (today : ℤ) (workoutDates : List ℤ) : ℕ :=
  match sortDesc workoutDates.dedup with
  | [] => 0
  | d :: rest =>
    if d = today ∨ d = today - 1 then chainCount (d :: rest) else 0

/-! ## Weekly nutrition aggregation (`view_weekly_summary`, lines 388–395) -/

/-- A meal entry, restricted to the fields the aggregator reads. -/
structure Meal where
  date : ℤ
  calories : ℤ
deriving DecidableEq

/-- Python `[m for m in meals if m["date"] >= week_ago_str]` with
`week_ago = today - timedelta(days=7)`. -/
def week_meals (today : ℤ) (meals : List Meal) : List Meal :=
  meals.filter (fun m => decide (today - 7 ≤ m.date))

/-- Python `sum(m["calories"] for m in week_meals)`. -/
def total_calories (ms : List Meal) : ℤ :=
  (ms.map (fun m => m.calories)).sum

/-- Python `len(set(m["date"] for m in week_meals))`. -/
def days_with_meals (ms : List Meal) : ℕ :=
  ((ms.map (fun m => m.date)).dedup).length

/-- Python `total_calories / days_with_meals if days_with_meals > 0 else 0`. -/
def avg_daily (ms : List Meal) : ℚ :=
  if 0 < days_with_meals ms then
    (total_calories ms : ℚ) / (days_with_meals ms : ℚ)
  else 0

/-! ## Progress chart renderer (`show_progress_chart`, lines 235–281) -/

/-- A record fed to the chart: a date and an already-parsed weight. -/
structure ChartRec where
  date : ℤ
  weight : ℚ
deriving DecidableEq

/-- Insertion step of a stable ascending sort by date: a new record goes
after every already-placed record with an earlier-or-equal date. -/
def insertRec (x : ChartRec) : List ChartRec → List ChartRec
  | [] => [x]
  | y :: ys => if y.date ≤ x.date then y :: insertRec x ys else x :: y :: ys

/-- Python `sorted(records, key=lambda x: x["date"])`: stable ascending sort. -/
def sortRecs (l : List ChartRec) : List ChartRec :=
  l.foldl (fun acc x => insertRec x acc) []

/-- Python `l[-n:]`: the last at-most-`n` elements. -/
def takeLast (n : ℕ) (l : List ChartRec) : List ChartRec :=
  l.drop (l.length - n)

/-- Minimum of a nonempty list of rationals (`min(weights)`); 0 for `[]`,
which the renderer never reaches. -/
def listMin : List ℚ → ℚ
  | [] => 0
  | x :: xs => xs.foldl min x

/-- Maximum of a nonempty list of rationals (`max(weights)`). -/
def listMax : List ℚ → ℚ
  | [] => 0
  | x :: xs => xs.foldl max x

/-- Everything the chart emits: the bounds, the displayed weights in
chronological order, the 8 rows of filled marks from top to bottom, and
the trailing summary (first value, last value, signed difference, and
whether the `+` prefix is shown). -/
structure ChartOut where
  minW : ℚ
  maxW : ℚ
  recent : List ℚ
  rows : List (List Bool)
  firstW : ℚ
  lastW : ℚ
  diff : ℚ
  plusSign : Bool
deriving DecidableEq

/-- The renderer `show_progress_chart`, lines 240–281: sort by date; fewer than two
records means "insufficient data" (`none`); min/max over *all* weights
with range 1 when they coincide; display the last 10 records; 8 rows from
`row = 7` (top) to `row = 0` (bottom) with threshold
`min + range * row / 7`, a point filled iff its weight is ≥ the threshold;
summary from `sorted_records[0]` and `sorted_records[-1]` with a `+`
prefix iff the difference is non-negative. -/
def show_progress_chart (records : List ChartRec) : Option ChartOut :=
  let sr := sortRecs records
  if sr.length < 2 then none
  else
    let weights := sr.map (fun r => r.weight)
    let min_w := listMin weights
    let max_w := listMax weights
    let weight_range := if max_w ≠ min_w then max_w - min_w else 1
    let recent := takeLast 10 sr
    let rows := ((List.range 8).reverse).map (fun (row : ℕ) =>
      recent.map (fun r => decide (min_w + weight_range * (row : ℚ) / 7 ≤ r.weight)))
    let first_weight := weights.headD 0
    let last_weight := weights.getLastD 0
    some
      { minW := min_w, maxW := max_w, recent := recent.map (fun r => r.weight),
        rows := rows, firstW := first_weight, lastW := last_weight,
        diff := last_weight - first_weight,
        plusSign := decide (0 ≤ last_weight - first_weight) }

/-! ## Persistence (`load_data` lines 62–67, `load_dict_data` lines 70–75)

The state of one on-disk file: absent, present but rejected by
`json.load` (which raises `json.JSONDecodeError`), or present with
parseable contents. -/

inductive StoredFile (α : Type) where
  | missing
  | corrupt
  | valid (data : α)
deriving DecidableEq

/-- The loader `load_data`: return `[]` when the file does not exist, otherwise
`json.load` the file — which raises on a corrupt file (modelled as
`Except.error`). -/
def load_data {α : Type} (f : StoredFile (List α)) : Except String (List α) :=
  match f with
  | .missing => .ok []
  | .corrupt => .error "JSONDecodeError"
  | .valid d => .ok d

/-- The loader `load_dict_data`: return an empty dict when the file does not exist, otherwise
`json.load` the file, which raises on a corrupt file.  A dict is modelled
as its list of key-value pairs. -/
def load_dict_data {α β : Type} (f : StoredFile (List (α × β))) :
    Except String (List (α × β)) :=
  match f with
  | .missing => .ok []
  | .corrupt => .error "JSONDecodeError"
  | .valid d => .ok d

/-! ## Concrete inputs used by witnesses and counterexamples -/

/-- History with a single 100 kg squat, for the C1 witness. -/
def squatHist : List Workout := [⟨"Squat".data, "100kg".data⟩]

/-- History with a single squat entry whose weight text parses to zero. -/
def squatZeroHist : List Workout := [⟨"Squat".data, "0kg".data⟩]

/-- History with a zero-parsing entry and a 5 kg entry, for the C10
witness. -/
def squatTwoHist : List Workout :=
  [⟨"Squat".data, "0kg".data⟩, ⟨"Squat".data, "5kg".data⟩]

/-- Two-point series for the chart witnesses. -/
def chartPair : List ChartRec := [⟨0, 50⟩, ⟨1, 60⟩]

/-- Eleven chronologically sorted points with weights 0,…,10. -/
def chartEleven : List ChartRec :=
  [⟨0, 0⟩, ⟨1, 1⟩, ⟨2, 2⟩, ⟨3, 3⟩, ⟨4, 4⟩, ⟨5, 5⟩,
   ⟨6, 6⟩, ⟨7, 7⟩, ⟨8, 8⟩, ⟨9, 9⟩, ⟨10, 10⟩]

/-! ## Helper lemmas -/

theorem dropWhile_head_not (p : Char → Bool) (l : List Char) (c : Char)
    (h : (l.dropWhile p).head? = some c) : p c = false := by
  induction l with
  | nil => simp [List.dropWhile] at h
  | cons a t ih =>
    rw [List.dropWhile_cons] at h
    cases hpa : p a with
    | true => rw [hpa] at h; simp only [if_true] at h; exact ih h
    | false =>
      rw [hpa] at h
      simp only [Bool.false_eq_true, if_false, List.head?_cons, Option.some.injEq] at h
      rw [← h]; exact hpa

/-- `str.strip()` is idempotent. -/
theorem trimL_trimL (s : List Char) : trimL (trimL s) = trimL s := by
  unfold trimL
  have h1 : List.dropWhile isWsChar
      (List.rdropWhile isWsChar (List.dropWhile isWsChar s))
      = List.rdropWhile isWsChar (List.dropWhile isWsChar s) := by
    cases hv : List.rdropWhile isWsChar (List.dropWhile isWsChar s) with
    | nil => rfl
    | cons a t =>
      have hpre := List.rdropWhile_prefix isWsChar (List.dropWhile isWsChar s)
      rw [hv] at hpre
      obtain ⟨t2, ht2⟩ := hpre
      have hh : (List.dropWhile isWsChar s).head? = some a := by
        rw [← ht2]; rfl
      have ha : isWsChar a = false := dropWhile_head_not isWsChar s a hh
      rw [List.dropWhile_cons, ha]
      simp
  rw [h1]
  exact List.rdropWhile_idempotent isWsChar (List.dropWhile isWsChar s)

theorem pyFloat_trimL (x : List Char) : pyFloat (trimL x) = pyFloat x := by
  unfold pyFloat
  rw [trimL_trimL]

/-- The numerator/denominator form of the pound-to-kilogram conversion is
exactly multiplication by the rational `0.453592`. -/
theorem mkRat_conv (q : ℚ) :
    mkRat (q.num * 453592) (q.den * 1000000) = q * (453592 / 1000000 : ℚ) := by
  rw [Rat.mkRat_eq_div]
  push_cast
  conv_rhs => rw [← Rat.num_div_den q]
  rw [div_mul_div_comm]

/-! ## C3: the weight parser -/

/-- C3: for every input string, `parse_weight` trims and lowercases it and
then follows the kg / lb / bare-float cascade described by the
specification (`parseWeightSpec`), and on the concrete inputs:
`parse_weight "225lbs"` is within `0.01` of `102.06`,
`parse_weight "100kg" = 100`, and `parse_weight "bogus" = none`. -/
theorem parse_weight_matches_spec :
    (∀ s : List Char, parse_weight s = parseWeightSpec s) ∧
    (∃ q : ℚ, parse_weight ("225lbs".data) = some q ∧ |q - 10206 / 100| ≤ 1 / 100) ∧
    parse_weight ("100kg".data) = some 100 ∧
    parse_weight ("bogus".data) = none := by
  refine ⟨?_, ⟨mkRat 102058200 1000000, by decide, ?_⟩, by decide, by decide⟩
  · intro s
    by_cases hs : s = []
    · subst hs; decide
    · simp only [parse_weight, parseWeightSpec, if_neg hs]
      cases h1 : hasKg (trimL (lowerL s)) with
      | true => simp only [if_true, pyFloat_trimL]
      | false =>
        simp only [Bool.false_eq_true, if_false]
        cases h2 : hasLb (trimL (lowerL s)) with
        | true =>
          simp only [if_true, pyFloat_trimL, mkRat_conv]
        | false => simp only [Bool.false_eq_true, if_false]
  · rw [Rat.mkRat_eq_div]
    rw [abs_le]
    constructor <;> norm_num

/-! ## PR-engine lemmas -/

theorem posParses_cons_none {w : Workout} {l : List Workout}
    (hpw : parse_weight w.weight = none) : posParses (w :: l) = posParses l := by
  unfold posParses
  rw [List.filterMap_cons]
  rw [hpw]

theorem posParses_cons_pos {w : Workout} {l : List Workout} {q : ℚ}
    (hpw : parse_weight w.weight = some q) (hq : 0 < q) :
    posParses (w :: l) = q :: posParses l := by
  unfold posParses
  rw [List.filterMap_cons]
  rw [hpw]
  simp only [if_pos hq]

theorem posParses_cons_nonpos {w : Workout} {l : List Workout} {q : ℚ}
    (hpw : parse_weight w.weight = some q) (hq : ¬0 < q) :
    posParses (w :: l) = posParses l := by
  unfold posParses
  rw [List.filterMap_cons]
  rw [hpw]
  simp only [if_neg hq]

theorem mxQ_cons (a : ℚ) (t : List ℚ) : mxQ (a :: t) = max a (mxQ t) := rfl

theorem mxQ_nonneg (l : List ℚ) : 0 ≤ mxQ l := by
  induction l with
  | nil => exact le_refl 0
  | cons a t ih => exact le_trans ih (le_max_right a (mxQ t))

theorem mxQ_mem (l : List ℚ) (h : 0 < mxQ l) : mxQ l ∈ l := by
  induction l with
  | nil => exact absurd h (lt_irrefl 0)
  | cons a t ih =>
    rw [mxQ_cons] at h ⊢
    by_cases hat : mxQ t ≤ a
    · rw [max_eq_left hat]
      exact List.mem_cons_self a t
    · rw [max_eq_right (le_of_not_le hat)] at h ⊢
      exact List.mem_cons_of_mem a (ih h)

theorem mem_posParses (l : List Workout) (q : ℚ) (hq : q ∈ posParses l) :
    ∃ w ∈ l, parse_weight w.weight = some q := by
  unfold posParses at hq
  obtain ⟨w, hwl, hwq⟩ := List.mem_filterMap.mp hq
  refine ⟨w, hwl, ?_⟩
  cases hpw : parse_weight w.weight with
  | none => rw [hpw] at hwq; exact absurd hwq (by simp)
  | some r =>
    rw [hpw] at hwq
    have hwq2 : (if 0 < r then some r else none) = some q := hwq
    by_cases h : 0 < r
    · rw [if_pos h] at hwq2
      rw [Option.some.injEq] at hwq2
      rw [hwq2]
    · rw [if_neg h] at hwq2
      exact absurd hwq2 (by simp)

theorem find?_exists (p : Workout → Bool) (l : List Workout) (a : Workout)
    (ha : a ∈ l) (hp : p a = true) :
    ∃ b, l.find? p = some b ∧ p b = true := by
  induction l with
  | nil => exact absurd ha (List.not_mem_nil a)
  | cons x xs ih =>
    by_cases hx : p x = true
    · exact ⟨x, List.find?_cons_of_pos xs hx, hx⟩
    · rcases List.mem_cons.mp ha with h | h
      · rw [← h] at hx; exact absurd hp hx
      · obtain ⟨b, hb1, hb2⟩ := ih h
        refine ⟨b, ?_, hb2⟩
        rw [List.find?_cons_of_neg xs (by simpa using hx), hb1]

/-- Characterization of the `get_pr_for_exercise` scan loop: starting from
a best weight `bw ≥ 0`, it returns its accumulator when no entry parses
strictly above `bw`, and otherwise the first entry whose weight parses to
the maximum positively-parsed value. -/
theorem prFold_spec (l : List Workout) (b : Option Workout) (bw : ℚ) (hbw : 0 ≤ bw) :
    prFold l b bw =
      if mxQ (posParses l) ≤ bw then b
      else l.find? (fun w => decide (parse_weight w.weight = some (mxQ (posParses l)))) := by
  induction l generalizing b bw with
  | nil =>
    rw [if_pos (by simpa [posParses, mxQ] using hbw)]
    rfl
  | cons w rest ih =>
    cases hpw : parse_weight w.weight with
    | none =>
      have hstep : prFold (w :: rest) b bw = prFold rest b bw := by
        rw [prFold, hpw]
      rw [hstep, posParses_cons_none hpw,
        List.find?_cons_of_neg rest (by simp [hpw])]
      exact ih b bw hbw
    | some q =>
      have hstep : prFold (w :: rest) b bw
          = if q ≠ 0 ∧ bw < q then prFold rest (some w) q else prFold rest b bw := by
        rw [prFold, hpw]
      rw [hstep]
      by_cases hup : q ≠ 0 ∧ bw < q
      · have hq0 : 0 < q := lt_of_le_of_lt hbw hup.2
        rw [if_pos hup, posParses_cons_pos hpw hq0, mxQ_cons]
        have hcond : ¬max q (mxQ (posParses rest)) ≤ bw := fun hc =>
          absurd (le_trans (le_max_left q (mxQ (posParses rest))) hc) (not_le.mpr hup.2)
        rw [if_neg hcond]
        by_cases hm : mxQ (posParses rest) ≤ q
        · rw [ih (some w) q (le_of_lt hq0), if_pos hm, max_eq_left hm,
            List.find?_cons_of_pos rest (by simp [hpw])]
        · rw [ih (some w) q (le_of_lt hq0), if_neg hm,
            max_eq_right (le_of_not_le hm)]
          rw [List.find?_cons_of_neg rest ?_]
          simp only [hpw, decide_eq_true_eq, Option.some.injEq]
          exact fun he => hm (le_of_eq he.symm)
      · rw [if_neg hup]
        by_cases hq : 0 < q
        · have hqbw : q ≤ bw := by
            rcases not_and_or.mp hup with h | h
            · exact absurd rfl (not_not.mp h ▸ (ne_of_gt hq))
            · exact le_of_not_lt h
          rw [posParses_cons_pos hpw hq, mxQ_cons]
          by_cases hcb : mxQ (posParses rest) ≤ bw
          · rw [if_pos (max_le hqbw hcb), ih b bw hbw, if_pos hcb]
          · have hlt : bw < mxQ (posParses rest) := lt_of_not_le hcb
            rw [if_neg (fun hc => hcb (le_trans (le_max_right q _) hc))]
            rw [max_eq_right (le_of_lt (lt_of_le_of_lt hqbw hlt))]
            rw [List.find?_cons_of_neg rest ?_]
            · rw [ih b bw hbw, if_neg hcb]
            · simp only [hpw, decide_eq_true_eq, Option.some.injEq]
              exact fun he => hcb (he ▸ hqbw)
        · rw [posParses_cons_nonpos hpw hq]
          by_cases hcb : mxQ (posParses rest) ≤ bw
          · rw [if_pos hcb, ih b bw hbw, if_pos hcb]
          · have hlt : bw < mxQ (posParses rest) := lt_of_not_le hcb
            rw [if_neg hcb]
            rw [List.find?_cons_of_neg rest ?_]
            · rw [ih b bw hbw, if_neg hcb]
            · simp only [hpw, decide_eq_true_eq, Option.some.injEq]
              intro he
              exact hq (he ▸ lt_of_le_of_lt hbw hlt)

/-- `get_pr_for_exercise` in closed form: `none` when no matching entry
parses to a positive weight, otherwise the first matching entry whose
weight parses to the maximum positively-parsed value. -/
theorem get_pr_spec (ws : List Workout) (ex : List Char) :
    get_pr_for_exercise ws ex =
      if mxQ (posParses (matchingWorkouts ws ex)) ≤ 0 then none
      else (matchingWorkouts ws ex).find? (fun w =>
        decide (parse_weight w.weight
          = some (mxQ (posParses (matchingWorkouts ws ex))))) := by
  unfold get_pr_for_exercise
  cases he : (matchingWorkouts ws ex).isEmpty with
  | true =>
    have hnil : matchingWorkouts ws ex = [] := List.isEmpty_iff.mp he
    rw [hnil]
    simp [posParses, mxQ]
  | false =>
    rw [if_neg (by simp [he])]
    rw [prFold_spec (matchingWorkouts ws ex) none 0 (le_refl 0)]

theorem get_pr_some (ws : List Workout) (ex : List Char)
    (h : 0 < mxQ (posParses (matchingWorkouts ws ex))) :
    ∃ b, get_pr_for_exercise ws ex = some b ∧
      parse_weight b.weight = some (mxQ (posParses (matchingWorkouts ws ex))) ∧
      (matchingWorkouts ws ex).find? (fun w =>
        decide (parse_weight w.weight
          = some (mxQ (posParses (matchingWorkouts ws ex))))) = some b := by
  rw [get_pr_spec, if_neg (not_le.mpr h)]
  obtain ⟨w, hwmem, hwp⟩ :=
    mem_posParses (matchingWorkouts ws ex) _ (mxQ_mem _ h)
  obtain ⟨b, hb1, hb2⟩ := find?_exists
    (fun w2 => decide (parse_weight w2.weight
      = some (mxQ (posParses (matchingWorkouts ws ex)))))
    (matchingWorkouts ws ex) w hwmem (by simp [hwp])
  refine ⟨b, hb1, ?_, hb1⟩
  exact of_decide_eq_true hb2

/-! ## C1, C2, C10: PR detection -/

/-- C1 (amended): whenever some matching entry's weight parses to a
positive value (equivalently, the maximum positively-parsed weight is
positive), `check_pr` returns `(true, t)` iff the new weight parses to a
value strictly above that maximum, with `t` the original weight text of
the first entry attaining the maximum; in every other case — tie, lower,
zero, negative, empty or unparseable new weight — it returns
`(false, none)`. -/
theorem check_pr_record_iff (ws : List Workout) (ex nw : List Char)
    (h : 0 < mxQ (posParses (matchingWorkouts ws ex))) :
    check_pr ws ex nw =
      match parse_weight nw with
      | some nv =>
        if mxQ (posParses (matchingWorkouts ws ex)) < nv then
          (true, ((matchingWorkouts ws ex).find? (fun w =>
            decide (parse_weight w.weight
              = some (mxQ (posParses (matchingWorkouts ws ex)))))).map Workout.weight)
        else (false, none)
      | none => (false, none) := by
  obtain ⟨b, hb, hbp, hbf⟩ := get_pr_some ws ex h
  cases hnw : parse_weight nw with
  | none =>
    have hstep : check_pr ws ex nw = (false, none) := by
      rw [check_pr, hnw]
    rw [hstep]
  | some nv =>
    have hstep : check_pr ws ex nw =
        if nv = 0 then (false, none)
        else
          match get_pr_for_exercise ws ex with
          | none => (true, none)
          | some old_pr =>
            match parse_weight old_pr.weight with
            | some ow => if ow ≠ 0 ∧ ow < nv then (true, some old_pr.weight) else (false, none)
            | none => (false, none) := by
      rw [check_pr, hnw]
    rw [hstep]
    show (if nv = 0 then ((false, none) : Bool × Option (List Char))
        else match get_pr_for_exercise ws ex with
          | none => (true, none)
          | some old_pr =>
            match parse_weight old_pr.weight with
            | some ow =>
              if ow ≠ 0 ∧ ow < nv then (true, some old_pr.weight) else (false, none)
            | none => (false, none))
      = if mxQ (posParses (matchingWorkouts ws ex)) < nv then
          (true, ((matchingWorkouts ws ex).find? (fun w =>
            decide (parse_weight w.weight
              = some (mxQ (posParses (matchingWorkouts ws ex)))))).map Workout.weight)
        else (false, none)
    by_cases h0 : nv = 0
    · rw [if_pos h0, if_neg (by rw [h0]; exact not_lt.mpr (le_of_lt h))]
    · rw [if_neg h0, hb]
      show (match parse_weight b.weight with
          | some ow => if ow ≠ 0 ∧ ow < nv then (true, some b.weight) else (false, none)
          | none => ((false, none) : Bool × Option (List Char))) = _
      rw [hbp]
      show (if mxQ (posParses (matchingWorkouts ws ex)) ≠ 0
            ∧ mxQ (posParses (matchingWorkouts ws ex)) < nv
          then ((true, some b.weight) : Bool × Option (List Char))
          else (false, none)) = _
      by_cases hlt : mxQ (posParses (matchingWorkouts ws ex)) < nv
      · rw [if_pos ⟨ne_of_gt h, hlt⟩, if_pos hlt, hbf]
        rfl
      · rw [if_neg (fun hc => hlt hc.2), if_neg hlt]

theorem check_pr_record_iff_witness :
    check_pr squatHist ("Squat".data) ("105kg".data) = (true, some ("100kg".data)) := by
  rw [check_pr_record_iff squatHist ("Squat".data) ("105kg".data) (by decide)]
  decide

/-- C1 counterexample: the entry `"0kg"` has parseable weight (0) and is
the maximum-weight matching entry, and the new weight 5 kg strictly
exceeds it, yet `check_pr` reports `(true, none)` — not the
`(true, some "0kg")` the claim requires ("t is the original unparsed
weight text of that prior-best entry"). -/
theorem check_pr_zero_prior_counterexample :
    parse_weight ("0kg".data) = some 0 ∧
    check_pr squatZeroHist ("Squat".data) ("5kg".data) = (true, none) ∧
    (true, (none : Option (List Char))) ≠ (true, some ("0kg".data)) :=
  ⟨by decide, by decide, by decide⟩

theorem posParses_eq_nil (l : List Workout)
    (h : ∀ w ∈ l, parse_weight w.weight = none) : posParses l = [] := by
  induction l with
  | nil => rfl
  | cons a t ih =>
    rw [posParses_cons_none (h a (List.mem_cons_self a t))]
    exact ih (fun w hw => h w (List.mem_cons_of_mem a hw))

/-- C2 (amended): when no matching entry has parseable weight (including
the empty history) and the new weight parses to a nonzero value,
`check_pr` returns `(true, none)`: the lift is automatically a record with
no previous value reported. -/
theorem check_pr_first_lift (ws : List Workout) (ex nw : List Char) (nv : ℚ)
    (hnone : ∀ w ∈ matchingWorkouts ws ex, parse_weight w.weight = none)
    (hp : parse_weight nw = some nv) (hnz : nv ≠ 0) :
    check_pr ws ex nw = (true, none) := by
  have hpr : get_pr_for_exercise ws ex = none := by
    rw [get_pr_spec, posParses_eq_nil _ hnone]
    simp [mxQ]
  have hstep : check_pr ws ex nw =
      if nv = 0 then (false, none)
      else
        match get_pr_for_exercise ws ex with
        | none => (true, none)
        | some old_pr =>
          match parse_weight old_pr.weight with
          | some ow => if ow ≠ 0 ∧ ow < nv then (true, some old_pr.weight) else (false, none)
          | none => (false, none) := by
    rw [check_pr, hp]
  rw [hstep, if_neg hnz, hpr]

theorem check_pr_first_lift_witness :
    check_pr [] ("Deadlift".data) ("60kg".data) = (true, none) :=
  check_pr_first_lift [] ("Deadlift".data) ("60kg".data) 60
    (by simp [matchingWorkouts]) (by decide) (by decide)

/-- C2 counterexample: with the empty history, the new weight text `"0"`
parses to a value (0), yet `check_pr` returns `(false, none)` instead of
the `(true, none)` the claim requires for every parseable new weight. -/
theorem check_pr_zero_new_counterexample :
    parse_weight ("0".data) = some 0 ∧
    check_pr [] ("Deadlift".data) ("0".data) = (false, none) ∧
    ((false, none) : Bool × Option (List Char)) ≠ ((true, none) : Bool × Option (List Char)) :=
  ⟨by decide, by decide, by decide⟩

/-- C10: a weight text parsing to exactly 0 is treated as absent: as a new
weight it is never a record (`(false, none)` on every history), and a
stored entry parsing to 0 is never selected as the prior best. -/
theorem zero_weight_ignored (ws : List Workout) (ex nw : List Char) :
    (parse_weight nw = some 0 → check_pr ws ex nw = (false, none)) ∧
    (∀ b, get_pr_for_exercise ws ex = some b → parse_weight b.weight ≠ some 0) := by
  constructor
  · intro h
    have hstep : check_pr ws ex nw =
        if (0 : ℚ) = 0 then (false, none)
        else
          match get_pr_for_exercise ws ex with
          | none => (true, none)
          | some old_pr =>
            match parse_weight old_pr.weight with
            | some ow => if ow ≠ 0 ∧ ow < 0 then (true, some old_pr.weight) else (false, none)
            | none => (false, none) := by
      rw [check_pr, h]
    rw [hstep, if_pos rfl]
  · intro b hb hzero
    rw [get_pr_spec] at hb
    by_cases hc : mxQ (posParses (matchingWorkouts ws ex)) ≤ 0
    · rw [if_pos hc] at hb
      exact Option.noConfusion hb
    · rw [if_neg hc] at hb
      have hp := List.find?_some hb
      simp only [decide_eq_true_eq] at hp
      rw [hzero, Option.some.injEq] at hp
      exact hc (le_of_eq hp.symm)

theorem zero_weight_ignored_witness :
    check_pr [] ("Squat".data) ("0kg".data) = (false, none) ∧
    parse_weight (Workout.weight ⟨"Squat".data, "5kg".data⟩) ≠ some 0 :=
  ⟨(zero_weight_ignored [] ("Squat".data) ("0kg".data)).1 (by decide),
   (zero_weight_ignored squatTwoHist ("Squat".data) ("x".data)).2
     ⟨"Squat".data, "5kg".data⟩ (by decide)⟩

/-! ## C4: streak calculation -/

theorem streakRun_chainCount (rest : List ℤ) : ∀ d : ℤ,
    1 + streakRun d rest = chainCount (d :: rest) := by
  induction rest with
  | nil => intro d; rfl
  | cons b r ih =>
    intro d
    rw [streakRun, chainCount]
    by_cases h : d - b = 1
    · rw [if_pos h, if_pos h, ← ih b]
    · rw [if_neg h, if_neg h]

/-- C4: `calculate_streak` computes exactly the count the specification
describes (`currentStreakSpec`): 0 when the most recent distinct date is
neither today nor yesterday, else the entries of the descending
distinct-date list up to and including the first gap that is not one day;
and on the concrete date sets: (today, today-1, today-2) gives 3,
(today-2, today-3) gives 0, and (today, today-2) gives 1. -/
theorem calculate_streak_spec :
    (∀ (today : ℤ) (dates : List ℤ),
      calculate_streak today dates = currentStreakSpec today dates) ∧
    calculate_streak 100 [100, 99, 98] = 3 ∧
    calculate_streak 100 [98, 97] = 0 ∧
    calculate_streak 100 [100, 98] = 1 := by
  refine ⟨?_, by decide, by decide, by decide⟩
  intro today dates
  by_cases hd : dates = []
  · rw [hd]; rfl
  · unfold calculate_streak currentStreakSpec
    rw [if_neg hd]
    cases hs : sortDesc dates.dedup with
    | nil => rfl
    | cons d rest =>
      show (if d ≠ today ∧ d ≠ today - 1 then 0 else 1 + streakRun d rest)
        = if d = today ∨ d = today - 1 then chainCount (d :: rest) else 0
      by_cases hcond : d = today ∨ d = today - 1
      · rw [if_pos hcond, if_neg (by push_neg; rcases hcond with h | h <;> simp [h])]
        exact streakRun_chainCount rest d
      · rw [if_neg hcond, if_pos (by push_neg at hcond; exact hcond)]

/-! ## C6: weekly nutrition aggregation -/

/-- C6: for the meals inside the trailing week window, the aggregator's
total is the sum of their calories; the daily average is 0 when no day has
a meal, and otherwise `total / distinct days with meals` (equivalently,
`average * days = total`); concretely, 2100 calories across 3 distinct
days average to 700. -/
theorem weekly_nutrition_spec :
    (∀ (today : ℤ) (meals : List Meal),
      (days_with_meals (week_meals today meals) = 0 →
        avg_daily (week_meals today meals) = 0) ∧
      (0 < days_with_meals (week_meals today meals) →
        avg_daily (week_meals today meals) * (days_with_meals (week_meals today meals) : ℚ)
          = (total_calories (week_meals today meals) : ℚ))) ∧
    avg_daily (week_meals 2 [⟨0, 800⟩, ⟨1, 600⟩, ⟨2, 700⟩]) = 700 := by
  constructor
  · intro today meals
    constructor
    · intro h
      unfold avg_daily
      rw [h]
      rfl
    · intro h
      unfold avg_daily
      rw [if_pos h]
      rw [div_mul_cancel₀]
      exact Nat.cast_ne_zero.mpr (Nat.pos_iff_ne_zero.mp h)
  · have hrfl : avg_daily (week_meals 2 [⟨0, 800⟩, ⟨1, 600⟩, ⟨2, 700⟩])
        = ((2100 : ℤ) : ℚ) / ((3 : ℕ) : ℚ) := rfl
    rw [hrfl]
    norm_num

theorem weekly_nutrition_spec_witness :
    avg_daily (week_meals 2 [⟨0, 800⟩, ⟨1, 600⟩, ⟨2, 700⟩])
        * (days_with_meals (week_meals 2 [⟨0, 800⟩, ⟨1, 600⟩, ⟨2, 700⟩]) : ℚ)
      = (total_calories (week_meals 2 [⟨0, 800⟩, ⟨1, 600⟩, ⟨2, 700⟩]) : ℚ) :=
  (weekly_nutrition_spec.1 2 [⟨0, 800⟩, ⟨1, 600⟩, ⟨2, 700⟩]).2 (by decide)

/-! ## Chart lemmas -/

theorem length_insertRec (x : ChartRec) (l : List ChartRec) :
    (insertRec x l).length = l.length + 1 := by
  induction l with
  | nil => rfl
  | cons y ys ih =>
    rw [insertRec]
    by_cases h : y.date ≤ x.date
    · rw [if_pos h]
      simp [ih]
    · rw [if_neg h]
      rfl

theorem length_sortRecsAux (l : List ChartRec) : ∀ acc : List ChartRec,
    (l.foldl (fun a x => insertRec x a) acc).length = acc.length + l.length := by
  induction l with
  | nil => intro acc; simp
  | cons x xs ih =>
    intro acc
    rw [List.foldl_cons, ih, length_insertRec, List.length_cons]
    omega

theorem length_sortRecs (l : List ChartRec) : (sortRecs l).length = l.length := by
  unfold sortRecs
  rw [length_sortRecsAux]
  simp

theorem getLastD_drop (l : List ℚ) : ∀ (k : ℕ) (d : ℚ), k < l.length →
    (l.drop k).getLastD d = l.getLastD d := by
  induction l with
  | nil => intro k d hk; simp at hk
  | cons a t ih =>
    intro k d hk
    cases k with
    | zero => rfl
    | succ k2 =>
      rw [List.drop_succ_cons, List.getLastD_cons]
      have hk2 : k2 < t.length := by simpa using hk
      cases t with
      | nil => simp at hk2
      | cons b u =>
        rw [ih k2 d hk2]
        rw [List.getLastD_cons, List.getLastD_cons]

/-- The renderer `show_progress_chart`, written out for at least two records. -/
theorem show_progress_chart_some (records : List ChartRec) (h : 2 ≤ records.length) :
    show_progress_chart records = some
      { minW := listMin ((sortRecs records).map (fun r => r.weight)),
        maxW := listMax ((sortRecs records).map (fun r => r.weight)),
        recent := (takeLast 10 (sortRecs records)).map (fun r => r.weight),
        rows := ((List.range 8).reverse).map (fun (row : ℕ) =>
          (takeLast 10 (sortRecs records)).map (fun r =>
            decide (listMin ((sortRecs records).map (fun r2 => r2.weight))
              + (if listMax ((sortRecs records).map (fun r2 => r2.weight))
                    ≠ listMin ((sortRecs records).map (fun r2 => r2.weight))
                  then listMax ((sortRecs records).map (fun r2 => r2.weight))
                    - listMin ((sortRecs records).map (fun r2 => r2.weight))
                  else 1) * (row : ℚ) / 7 ≤ r.weight))),
        firstW := ((sortRecs records).map (fun r => r.weight)).headD 0,
        lastW := ((sortRecs records).map (fun r => r.weight)).getLastD 0,
        diff := ((sortRecs records).map (fun r => r.weight)).getLastD 0
          - ((sortRecs records).map (fun r => r.weight)).headD 0,
        plusSign := decide (0 ≤ ((sortRecs records).map (fun r => r.weight)).getLastD 0
          - ((sortRecs records).map (fun r => r.weight)).headD 0) } := by
  unfold show_progress_chart
  rw [if_neg (by rw [length_sortRecs]; omega)]

/-! ## C9: insufficient data -/

/-- C9: the chart renderer emits no chart exactly when the series has
fewer than 2 points; this is the `none` result, not an error. -/
theorem chart_requires_two_points (records : List ChartRec) :
    show_progress_chart records = none ↔ records.length < 2 := by
  unfold show_progress_chart
  by_cases h : (sortRecs records).length < 2
  · rw [if_pos h]
    rw [length_sortRecs] at h
    simp [h]
  · rw [if_neg h]
    rw [length_sortRecs] at h
    simp [h]

/-! ## C5: the trailing summary -/

/-- C5 (amended): for a series of at least 2 points the trailing summary
reports the first value of the *entire* sorted series (not of the
displayed slice), the last displayed value, and their signed difference,
with the `+` prefix exactly when the difference is non-negative. -/
theorem chart_summary_values (records : List ChartRec) (h : 2 ≤ records.length) :
    (show_progress_chart records).map ChartOut.firstW
      = some (((sortRecs records).map (fun r => r.weight)).headD 0) ∧
    (show_progress_chart records).map ChartOut.lastW
      = some (((takeLast 10 (sortRecs records)).map (fun r => r.weight)).getLastD 0) ∧
    (show_progress_chart records).map ChartOut.diff
      = some (((sortRecs records).map (fun r => r.weight)).getLastD 0
          - ((sortRecs records).map (fun r => r.weight)).headD 0) ∧
    (show_progress_chart records).map ChartOut.plusSign
      = some (decide (0 ≤ ((sortRecs records).map (fun r => r.weight)).getLastD 0
          - ((sortRecs records).map (fun r => r.weight)).headD 0)) := by
  rw [show_progress_chart_some records h]
  refine ⟨rfl, ?_, rfl, rfl⟩
  refine congrArg some ?_
  unfold takeLast
  rw [List.map_drop]
  rw [getLastD_drop]
  rw [List.length_map, length_sortRecs]
  omega

theorem chart_summary_values_witness :
    (show_progress_chart chartPair).map ChartOut.firstW
      = some (((sortRecs chartPair).map (fun r => r.weight)).headD 0) :=
  (chart_summary_values chartPair (by decide)).1

/-- C5 counterexample: with 11 points, only the last 10 are displayed
(first displayed value 1), but the summary's first value is 0 — the first
value of the entire series, not the first displayed value as the claim
states. -/
theorem chart_summary_not_first_displayed :
    (show_progress_chart chartEleven).map ChartOut.firstW = some 0 ∧
    (show_progress_chart chartEleven).map (fun o => o.recent.headD 0) = some 1 ∧
    (some (0 : ℚ) : Option ℚ) ≠ some 1 :=
  ⟨by decide, by decide, by decide⟩

/-! ## C7: chart geometry -/

/-- C7: for a series of at least 2 points the renderer displays the at
most 10 most recent points in chronological order; min and max are taken
over the entire series, with range 1 when they coincide; there are exactly
8 rows, the row printed at vertical position `7 - row` (so `row = 7` on
top and `row = 0` at the bottom) marking each displayed point filled iff
its value is at least `min + range * row / 7`. -/
theorem chart_render_spec (records : List ChartRec) (h : 2 ≤ records.length) :
    (show_progress_chart records).map (fun o => o.rows.length) = some 8 ∧
    (show_progress_chart records).map ChartOut.recent
      = some ((takeLast 10 (sortRecs records)).map (fun r => r.weight)) ∧
    ((takeLast 10 (sortRecs records)).map (fun r => r.weight)).length ≤ 10 ∧
    (show_progress_chart records).map ChartOut.minW
      = some (listMin ((sortRecs records).map (fun r => r.weight))) ∧
    (show_progress_chart records).map ChartOut.maxW
      = some (listMax ((sortRecs records).map (fun r => r.weight))) ∧
    ∀ row : ℕ, row ≤ 7 →
      (show_progress_chart records).map (fun o => o.rows.get? (7 - row))
        = some (some ((takeLast 10 (sortRecs records)).map (fun r =>
            decide (listMin ((sortRecs records).map (fun r2 => r2.weight))
              + (if listMax ((sortRecs records).map (fun r2 => r2.weight))
                    ≠ listMin ((sortRecs records).map (fun r2 => r2.weight))
                  then listMax ((sortRecs records).map (fun r2 => r2.weight))
                    - listMin ((sortRecs records).map (fun r2 => r2.weight))
                  else 1) * row / 7 ≤ r.weight)))) := by
  rw [show_progress_chart_some records h]
  refine ⟨?_, rfl, ?_, rfl, rfl, ?_⟩
  · simp
  · unfold takeLast
    rw [List.length_map, List.length_drop]
    omega
  · intro row hrow
    interval_cases row <;> rfl

theorem chart_render_spec_witness :
    (show_progress_chart chartPair).map (fun o => o.rows.length) = some 8 :=
  (chart_render_spec chartPair (by decide)).1

/-! ## C8: persistence -/

/-- C8 counterexample: a corrupted (present but unparseable) workout file
makes `load_data` propagate the `json.load` failure instead of returning
the empty collection the claim requires. -/
theorem load_data_corrupt_counterexample :
    load_data (StoredFile.corrupt : StoredFile (List ℤ)) = Except.error "JSONDecodeError" ∧
    load_data (StoredFile.corrupt : StoredFile (List ℤ)) ≠ Except.ok [] :=
  ⟨rfl, fun hc => Except.noConfusion hc⟩

/-- C8 (amended): a missing file is treated as the empty collection
(`[]` for `load_data`, `{}` for `load_dict_data`) and never causes a
crash, so every operation works on a first run with no pre-existing
files; a present, parseable file loads its contents; a corrupted file,
however, is not handled and propagates the `json.load` error. -/
theorem load_missing_gives_empty :
    (∀ α : Type, load_data (StoredFile.missing : StoredFile (List α)) = Except.ok []) ∧
    (∀ α β : Type,
      load_dict_data (StoredFile.missing : StoredFile (List (α × β))) = Except.ok []) ∧
    (∀ (α : Type) (d : List α), load_data (StoredFile.valid d) = Except.ok d) ∧
    (∀ (α β : Type) (d : List (α × β)), load_dict_data (StoredFile.valid d) = Except.ok d) ∧
    (∀ α : Type,
      load_data (StoredFile.corrupt : StoredFile (List α)) = Except.error "JSONDecodeError") :=
  ⟨fun _ => rfl, fun _ _ => rfl, fun _ _ => rfl, fun _ _ _ => rfl, fun _ => rfl⟩
